import Mathlib

/-!
Verification development for the gallery activity-log system
(`security_utils.{h,cpp}`, `logappend.cpp`, `logread.cpp`).

Strings are embedded as `List Char` (a C++ `std::string` is a byte
sequence).  Pure helpers of `security_utils.cpp` become Lean functions;
the `main` drivers of `logappend.cpp` / `logread.cpp` become pure
functions from an explicit filesystem state (the log file's content, or
`none` when the file does not exist) to a result and a new filesystem
state.  The SHA-256 hash is external cryptography and is abstracted as a
function parameter `hashFn`; everything downstream of it (the store
scan, constant-time comparison, permission check) is embedded from the
source.
-/

namespace GalleryLog

/-! ### Field validation (security_utils.cpp) -/

/-- Embeds `std::isalnum` in the default C locale: ASCII letters and digits. -/
def isAlnumC (c : Char) : Bool :=
  ('0' ≤ c && c ≤ '9') || ('A' ≤ c && c ≤ 'Z') || ('a' ≤ c && c ≤ 'z')

/-- Embeds `std::isdigit` in the default C locale: ASCII digits. -/
def isDigitC (c : Char) : Bool :=
  '0' ≤ c && c ≤ '9'

/-- Embeds `validIdLike`: used for actorId and personId (1-32 chars of
letters, digits, underscore, dash). -/
def validIdLike (s : List Char) : Bool :=
  !s.isEmpty && s.length ≤ 32 &&
    s.all (fun c => isAlnumC c || c == '_' || c == '-')

/-- Embeds `validateAction`: only ENTER, MOVE, EXIT. -/
def validateAction (action : List Char) : Bool :=
  action == ("ENTER".data) || action == ("MOVE".data) || action == ("EXIT".data)

/-- The fixed room whitelist of `validateRoomId`, including the
sentinel `"-"` used for EXIT events. -/
def ROOMS : List (List Char) :=
  [ ("lobby".data), ("gallery1".data), ("gallery2".data), ("vault".data),
    ("security".data), ("storage".data), ("-".data) ]

/-- Embeds `validateRoomId`: membership in the fixed whitelist. -/
def validateRoomId (room : List Char) : Bool :=
  ROOMS.contains room

/-- Embeds `validatePersonId`: same rules as `validIdLike`. -/
def validatePersonId (id : List Char) : Bool :=
  validIdLike id

/-- Embeds `validateTimestamp`: 1-11 ASCII digits. -/
def validateTimestamp (ts : List Char) : Bool :=
  !ts.isEmpty && ts.length ≤ 11 && ts.all isDigitC

/-! ### Log codec (security_utils.cpp) -/

/-- Embeds `split`: simple splitter by a single character delimiter.  Mirrors
the C++ loop that pushes the current chunk on each delimiter and pushes
the final chunk at the end (so the result is never empty). -/
def split : List Char → Char → List (List Char)
  | [], _ => [[]]
  | c :: rest, delim =>
    if c == delim then
      [] :: split rest delim
    else
      match split rest delim with
      | [] => [[c]]
      | cur :: out => (c :: cur) :: out

/-- One in-memory log record: `timestamp|actorId|personId|action|roomId`. -/
structure LogEntry where
  timestamp : List Char
  actorId : List Char
  personId : List Char
  action : List Char
  roomId : List Char
deriving Repr, DecidableEq

/-- Embeds `formatLogEntry`: canonical on-disk line,
`timestamp|actorId|personId|action|roomId\n`. -/
def formatLogEntry (e : LogEntry) : List Char :=
  e.timestamp ++ '|' :: e.actorId ++ '|' :: e.personId ++
    '|' :: e.action ++ '|' :: e.roomId ++ ['\n']

/-- The trailing-`\r`/`\n` strip loop of `parseLogLine` (pops from the
back while the last character is `\n` or `\r`). -/
def stripTrailing (s : List Char) : List Char :=
  (s.reverse.dropWhile (fun c => c == '\n' || c == '\r')).reverse

/-- Embeds `parseLogLine`: strip trailing newline characters, split on `|`,
require exactly 5 parts, validate each field, and build the record.
`none` models the C++ `false` return. -/
def parseLogLine (line : List Char) : Option LogEntry :=
  match split (stripTrailing line) '|' with
  | [ts, aid, pid, act, room] =>
    if validateTimestamp ts && validIdLike aid && validatePersonId pid &&
        validateAction act && validateRoomId room then
      some ⟨ts, aid, pid, act, room⟩
    else
      none
  | _ => none

/-! ### Tokens and authentication (security_utils.cpp) -/

inductive Operation where
  | Read
  | Append
deriving Repr, DecidableEq

inductive Permission where
  | ReadOnly
  | AppendOnly
  | ReadWrite
deriving Repr, DecidableEq

structure UserTokenInfo where
  actorId : List Char
  permission : Permission
  tokenHash : List Char
deriving Repr, DecidableEq

/-- Embeds `permissionAllows`: ReadWrite permits both operations, ReadOnly
only Read, AppendOnly only Append. -/
def permissionAllows (p : Permission) (op : Operation) : Bool :=
  if p == Permission.ReadWrite then true
  else if p == Permission.ReadOnly then op == Operation.Read
  else if p == Permission.AppendOnly then op == Operation.Append
  else false

/-- Embeds `constantTimeEquals`: length check, then an accumulator folding the
XOR of corresponding bytes; equal only when the accumulator is zero. -/
def constantTimeEquals (a b : List Char) : Bool :=
  if a.length ≠ b.length then false
  else
    ((a.zip b).foldl (fun diff p => diff ||| (p.1.toNat ^^^ p.2.toNat)) 0) == 0

/-- The scan loop of `authenticateToken` over the store: the first
record whose stored hash equals the provided hash decides the outcome
(success when its permission allows the operation, failure otherwise);
no match at all is failure. -/
def scanStore (providedHash : List Char) (requiredOp : Operation) :
    List UserTokenInfo → Option UserTokenInfo
  | [] => none
  | user :: rest =>
    if constantTimeEquals providedHash user.tokenHash then
      if permissionAllows user.permission requiredOp then
        some user
      else
        none
    else
      scanStore providedHash requiredOp rest

/-- Embeds `authenticateToken`: reject empty tokens, hash the provided token
(`hashFn` abstracts `sha256Hex`), and scan the store. -/
def authenticateToken (hashFn : List Char → List Char)
    (providedToken : List Char) (requiredOp : Operation)
    (store : List UserTokenInfo) : Option UserTokenInfo :=
  if providedToken.isEmpty then none
  else scanStore (hashFn providedToken) requiredOp store

/-! ### State reconstruction (logappend.cpp, replay loop of `main`) -/

/-- Embeds `PersonState`: current state of one person.  A person absent from
the C++ `unordered_map` behaves exactly like the default-constructed
state (outside, empty room), so the map is embedded as a total function
with that default. -/
structure PersonState where
  inside : Bool
  room : List Char
deriving Repr, DecidableEq

/-- The default-constructed `PersonState`: outside, empty room. -/
def initialPersonState : PersonState :=
  ⟨false, []⟩

/-- The action branch of the replay loop: ENTER and MOVE set
`(inside=true, room=roomId)`, EXIT sets `(inside=false, room="")`; any
other action (impossible for a parsed entry) leaves the state alone. -/
def applyAction (ps : PersonState) (e : LogEntry) : PersonState :=
  if e.action == ("ENTER".data) then ⟨true, e.roomId⟩
  else if e.action == ("MOVE".data) then ⟨true, e.roomId⟩
  else if e.action == ("EXIT".data) then ⟨false, []⟩
  else ps

/-- One replay step on the whole state map for a parsed entry. -/
def applyEntry (st : List Char → PersonState) (e : LogEntry) :
    List Char → PersonState :=
  fun pid => if pid == e.personId then applyAction (st e.personId) e else st pid

/-- Replay over already-parsed records, in order. -/
def replayEntries (entries : List LogEntry) : List Char → PersonState :=
  entries.foldl applyEntry (fun _ => initialPersonState)

/-- One iteration of the `while (std::getline...)` loop: skip the line
when `parseLogLine` rejects it, otherwise apply it. -/
def replayStep (st : List Char → PersonState) (line : List Char) :
    List Char → PersonState :=
  match parseLogLine line with
  | none => st
  | some e => applyEntry st e

/-- Replay of raw lines in file order (the loop in `logappend.cpp`). -/
def replayLines (lines : List (List Char)) : List Char → PersonState :=
  lines.foldl replayStep (fun _ => initialPersonState)

/-! ### The filesystem model -/

/-- The log file as raw bytes; `none` = the file does not exist. -/
abbrev FsState := Option (List Char)

/-- The content a reader sees: a missing file reads as empty. -/
def contentOf (fs : FsState) : List Char :=
  fs.getD []

/-- Embeds the `std::getline` splitting of a file's bytes: split on `'\n'`; when
the content ends in a newline the final empty chunk is not yielded. -/
def fileLines (c : List Char) : List (List Char) :=
  let parts := split c '\n'
  if parts.getLast? == some [] then parts.dropLast else parts

/-! ### Transition validator (logappend.cpp, rule block of `main`) -/

/-- The distinct validation-failure reasons surfaced by the rule block
of `logappend.cpp`. -/
inductive ValErr where
  | alreadyInside
  | notInside
  | sameRoom
  | concreteRoomRequired
  | roomMismatch
deriving Repr, DecidableEq

/-- The gallery-rule block of `logappend.cpp` for the NEW event,
embedded with the checks in source order.  `currentlyInside` and
`currentRoom` are the values computed from the replayed state (an
outside person always presents `currentRoom = ""`).  An event that is
none of ENTER/MOVE/EXIT falls through accepted, exactly as in the
source (such events are rejected syntactically earlier). -/
def validateTransition (currentlyInside : Bool) (currentRoom : List Char)
    (event roomId : List Char) : Except ValErr Unit :=
  if event == ("ENTER".data) then
    if currentlyInside then Except.error ValErr.alreadyInside
    else if roomId == ("-".data) then Except.error ValErr.concreteRoomRequired
    else Except.ok ()
  else if event == ("MOVE".data) then
    if !currentlyInside then Except.error ValErr.notInside
    else if roomId == currentRoom then Except.error ValErr.sameRoom
    else if roomId == ("-".data) then Except.error ValErr.concreteRoomRequired
    else Except.ok ()
  else if event == ("EXIT".data) then
    if !currentlyInside then Except.error ValErr.notInside
    else if !(roomId == ("-".data) || roomId == currentRoom) then
      Except.error ValErr.roomMismatch
    else Except.ok ()
  else Except.ok ()

/-! ### Append executor (logappend.cpp `main`) -/

/-- Outcome of one `logappend` invocation (argument-count errors of the
CLI glue are outside the model). -/
inductive AppendOutcome where
  | usageMissing
  | usageBadEvent
  | usageBadRoom
  | usageBadPerson
  | authFailed
  | validationError (e : ValErr)
  | success
deriving Repr, DecidableEq

/-- Embeds `logappend.cpp` `main` after argument collection, as a pure
function of the log file state.  Order of steps as in the source:
required-parameter check, syntactic validation (event, room, person),
authentication, `openFileAppend` (which CREATES the file when missing:
`O_CREAT`), replay, gallery-rule validation, append of the formatted
line.  Returns the outcome and the new filesystem state. -/
def logappendRun (hashFn : List Char → List Char)
    (store : List UserTokenInfo) (now : List Char) (fs : FsState)
    (token event personId roomId : List Char) :
    AppendOutcome × FsState :=
  if token.isEmpty || event.isEmpty || personId.isEmpty || roomId.isEmpty then
    (AppendOutcome.usageMissing, fs)
  else if !validateAction event then (AppendOutcome.usageBadEvent, fs)
  else if !validateRoomId roomId then (AppendOutcome.usageBadRoom, fs)
  else if !validatePersonId personId then (AppendOutcome.usageBadPerson, fs)
  else
    match authenticateToken hashFn token Operation.Append store with
    | none => (AppendOutcome.authFailed, fs)
    | some user =>
      let content := contentOf fs
      let fsOpened : FsState := some content
      let st := replayLines (fileLines content)
      let currentlyInside := (st personId).inside
      let currentRoom := if currentlyInside then (st personId).room else []
      match validateTransition currentlyInside currentRoom event roomId with
      | Except.error e => (AppendOutcome.validationError e, fsOpened)
      | Except.ok _ =>
        let newEntry : LogEntry := ⟨now, user.actorId, personId, event, roomId⟩
        (AppendOutcome.success, some (content ++ formatLogEntry newEntry))

/-! ### Read executor (logread.cpp `main`) -/

/-- Outcome of one `logread` invocation. -/
inductive ReadOutcome where
  | authFailed
  | success (entries : List LogEntry)
deriving Repr, DecidableEq

/-- Embeds `logread.cpp` `main` after argument collection: authenticate for
Read; a missing file is a successful empty result; otherwise parse each
line, skipping malformed ones, and return the parsed records in file
order.  The file state is returned to express that nothing mutates. -/
def logreadRun (hashFn : List Char → List Char)
    (store : List UserTokenInfo) (fs : FsState) (token : List Char) :
    ReadOutcome × FsState :=
  match authenticateToken hashFn token Operation.Read store with
  | none => (ReadOutcome.authFailed, fs)
  | some _ =>
    match fs with
    | none => (ReadOutcome.success [], fs)
    | some c =>
      (ReadOutcome.success ((fileLines c).filterMap parseLogLine), fs)

/-! ### Helper lemmas: constant-time comparison agrees with equality -/

theorem nat_or_eq_zero {a b : Nat} : a ||| b = 0 ↔ a = 0 ∧ b = 0 := by
  constructor
  · intro h
    have ha : a = 0 := by
      apply Nat.eq_of_testBit_eq
      intro i
      have hb := congrArg (fun n => Nat.testBit n i) h
      simp [Nat.testBit_or] at hb
      simp [hb.1]
    have hb : b = 0 := by
      apply Nat.eq_of_testBit_eq
      intro i
      have hb := congrArg (fun n => Nat.testBit n i) h
      simp [Nat.testBit_or] at hb
      simp [hb.2]
    exact ⟨ha, hb⟩
  · rintro ⟨rfl, rfl⟩
    rfl

theorem foldl_or_eq_zero {α : Type} (f : α → Nat) :
    ∀ (l : List α) (acc : Nat),
      (l.foldl (fun d x => d ||| f x) acc = 0 ↔ acc = 0 ∧ ∀ x ∈ l, f x = 0)
  | [], acc => by simp
  | x :: l, acc => by
    rw [List.foldl_cons, foldl_or_eq_zero f l (acc ||| f x)]
    rw [nat_or_eq_zero]
    constructor
    · rintro ⟨⟨h1, h2⟩, h3⟩
      exact ⟨h1, by simpa using ⟨h2, h3⟩⟩
    · rintro ⟨h1, h2⟩
      simp at h2
      exact ⟨⟨h1, h2.1⟩, h2.2⟩

theorem char_toNat_inj {a b : Char} (h : a.toNat = b.toNat) : a = b := by
  apply Char.eq_of_val_eq
  apply UInt32.eq_of_toBitVec_eq
  exact BitVec.eq_of_toNat_eq h

theorem zip_pointwise_eq :
    ∀ {a b : List Char}, a.length = b.length →
      ((∀ p ∈ a.zip b, p.1 = p.2) ↔ a = b)
  | [], [], _ => by simp
  | [], _ :: _, h => by simp at h
  | _ :: _, [], h => by simp at h
  | x :: a, y :: b, h => by
    simp only [List.zip_cons_cons, List.mem_cons, List.cons.injEq]
    rw [← zip_pointwise_eq (by simpa using h)]
    constructor
    · intro hp
      exact ⟨hp (x, y) (Or.inl rfl), fun p hp2 => hp p (Or.inr hp2)⟩
    · rintro ⟨⟨rfl, rfl⟩, h2⟩ p hp
      rcases hp with rfl | hp
      · rfl
      · exact h2 p hp

theorem constantTimeEquals_iff {a b : List Char} :
    constantTimeEquals a b = true ↔ a = b := by
  unfold constantTimeEquals
  by_cases hlen : a.length = b.length
  · simp only [hlen, ne_eq, not_true_eq_false, if_false, beq_iff_eq]
    rw [foldl_or_eq_zero (fun p : Char × Char => p.1.toNat ^^^ p.2.toNat)
      (a.zip b) 0]
    rw [← zip_pointwise_eq hlen]
    constructor
    · rintro ⟨-, h⟩ p hp
      exact char_toNat_inj (Nat.xor_eq_zero.mp (h p hp))
    · intro h
      exact ⟨rfl, fun p hp => Nat.xor_eq_zero.mpr (congrArg Char.toNat (h p hp))⟩
  · simp only [ne_eq, hlen, not_false_eq_true, if_true]
    constructor
    · intro h
      exact absurd h (by simp)
    · rintro rfl
      exact absurd rfl hlen

theorem constantTimeEquals_eq_false_of_ne {a b : List Char} (h : a ≠ b) :
    constantTimeEquals a b = false := by
  rcases hc : constantTimeEquals a b with _ | _
  · rfl
  · exact absurd (constantTimeEquals_iff.mp hc) h

/-! ### Helper lemmas: the store scan -/

theorem scanStore_none {providedHash : List Char} {op : Operation} :
    ∀ {l : List UserTokenInfo},
      (∀ u ∈ l, constantTimeEquals providedHash u.tokenHash = false) →
      scanStore providedHash op l = none
  | [], _ => rfl
  | u :: l, h => by
    have hne := h u (List.mem_cons_self u l)
    simp only [scanStore, hne, Bool.false_eq_true, if_false]
    exact scanStore_none (fun v hv => h v (List.mem_cons_of_mem u hv))

theorem scanStore_skip {providedHash : List Char} {op : Operation} :
    ∀ {pre : List UserTokenInfo} {rest : List UserTokenInfo},
      (∀ u ∈ pre, constantTimeEquals providedHash u.tokenHash = false) →
      scanStore providedHash op (pre ++ rest) = scanStore providedHash op rest
  | [], _, _ => rfl
  | u :: pre, rest, h => by
    have hne := h u (List.mem_cons_self u pre)
    simp only [List.cons_append, scanStore, hne, Bool.false_eq_true, if_false]
    exact scanStore_skip (fun v hv => h v (List.mem_cons_of_mem u hv))

/-! ### Helper lemmas: characters of validated fields -/

theorem isDigitC_ne_special {c : Char} (h : isDigitC c = true) :
    c ≠ '|' ∧ c ≠ '\n' ∧ c ≠ '\r' := by
  simp only [isDigitC, Bool.and_eq_true, decide_eq_true_eq] at h
  refine ⟨?_, ?_, ?_⟩ <;> rintro rfl <;> revert h <;> decide

theorem idChar_ne_special {c : Char}
    (h : (isAlnumC c || c == '_' || c == '-') = true) :
    c ≠ '|' ∧ c ≠ '\n' ∧ c ≠ '\r' := by
  simp only [isAlnumC, Bool.or_eq_true, Bool.and_eq_true, decide_eq_true_eq,
    beq_iff_eq] at h
  refine ⟨?_, ?_, ?_⟩ <;> rintro rfl <;> revert h <;> decide

theorem validateTimestamp_chars {ts : List Char}
    (h : validateTimestamp ts = true) :
    ∀ c ∈ ts, c ≠ '|' ∧ c ≠ '\n' ∧ c ≠ '\r' := by
  intro c hc
  unfold validateTimestamp at h
  simp only [Bool.and_eq_true, List.all_eq_true] at h
  exact isDigitC_ne_special (h.2 c hc)

theorem validIdLike_chars {s : List Char} (h : validIdLike s = true) :
    ∀ c ∈ s, c ≠ '|' ∧ c ≠ '\n' ∧ c ≠ '\r' := by
  intro c hc
  unfold validIdLike at h
  simp only [Bool.and_eq_true, List.all_eq_true] at h
  exact idChar_ne_special (h.2 c hc)

theorem validateAction_cases {act : List Char} (h : validateAction act = true) :
    act = ("ENTER".data) ∨ act = ("MOVE".data) ∨ act = ("EXIT".data) := by
  simpa only [validateAction, Bool.or_eq_true, beq_iff_eq, or_assoc] using h

theorem validateAction_chars {act : List Char} (h : validateAction act = true) :
    ∀ c ∈ act, c ≠ '|' ∧ c ≠ '\n' ∧ c ≠ '\r' := by
  rcases validateAction_cases h with rfl | rfl | rfl <;> decide

theorem validateRoomId_cases {room : List Char}
    (h : validateRoomId room = true) : room ∈ ROOMS := by
  simpa [validateRoomId] using h

theorem validateRoomId_chars {room : List Char}
    (h : validateRoomId room = true) :
    ∀ c ∈ room, c ≠ '|' ∧ c ≠ '\n' ∧ c ≠ '\r' := by
  have hm := validateRoomId_cases h
  simp only [ROOMS, List.mem_cons, List.not_mem_nil, or_false] at hm
  rcases hm with rfl | rfl | rfl | rfl | rfl | rfl | rfl <;> decide

/-! ### Helper lemmas: split and trailing-strip -/

theorem split_cons (c : Char) (rest : List Char) (delim : Char) :
    split (c :: rest) delim =
      if c == delim then [] :: split rest delim
      else
        match split rest delim with
        | [] => [[c]]
        | cur :: out => (c :: cur) :: out := rfl

theorem split_no_delim {d : Char} :
    ∀ {a : List Char}, d ∉ a → split a d = [a]
  | [], _ => rfl
  | c :: a, h => by
    have hcd : (c == d) = false := by
      simp only [beq_eq_false_iff_ne, ne_eq]
      intro hc
      exact h (List.mem_cons.mpr (Or.inl hc.symm))
    rw [split_cons, hcd]
    simp only [Bool.false_eq_true, if_false]
    rw [split_no_delim (fun hd => h (List.mem_cons_of_mem c hd))]

theorem split_append_delim {d : Char} :
    ∀ {a : List Char} (rest : List Char), d ∉ a →
      split (a ++ d :: rest) d = a :: split rest d
  | [], rest, _ => by
    rw [List.nil_append, split_cons]
    simp
  | c :: a, rest, h => by
    rw [List.cons_append, split_cons]
    have hcd : (c == d) = false := by
      simp only [beq_eq_false_iff_ne, ne_eq]
      intro hc
      exact h (List.mem_cons.mpr (Or.inl hc.symm))
    rw [hcd]
    simp only [Bool.false_eq_true, if_false]
    rw [split_append_delim rest (fun hd => h (List.mem_cons_of_mem c hd))]

theorem dropWhile_all_false {p : Char → Bool} :
    ∀ {l : List Char}, (∀ c ∈ l, p c = false) → l.dropWhile p = l
  | [], _ => rfl
  | c :: l, h => by
    rw [List.dropWhile_cons, h c (List.mem_cons_self c l)]
    simp

theorem stripTrailing_body_newline {s : List Char}
    (h : ∀ c ∈ s, c ≠ '\n' ∧ c ≠ '\r') :
    stripTrailing (s ++ ['\n']) = s := by
  unfold stripTrailing
  have h1 : (s ++ ['\n']).reverse = '\n' :: s.reverse := by simp
  rw [h1, List.dropWhile_cons]
  have h2 : (('\n' == '\n') || ('\n' == '\r')) = true := by decide
  rw [h2]
  simp only [if_true]
  rw [dropWhile_all_false, List.reverse_reverse]
  intro c hc
  have hcs := h c (List.mem_reverse.mp hc)
  simp [hcs.1, hcs.2]

/-! ### Helper lemmas: the parse function characterized -/

theorem parseLogLine_of_fields {line ts aid pid act room : List Char}
    (hs : split (stripTrailing line) '|' = [ts, aid, pid, act, room])
    (h1 : validateTimestamp ts = true) (h2 : validIdLike aid = true)
    (h3 : validatePersonId pid = true) (h4 : validateAction act = true)
    (h5 : validateRoomId room = true) :
    parseLogLine line = some ⟨ts, aid, pid, act, room⟩ := by
  unfold parseLogLine
  rw [hs]
  simp [h1, h2, h3, h4, h5]

theorem parseLogLine_inv {line : List Char} {e : LogEntry}
    (h : parseLogLine line = some e) :
    split (stripTrailing line) '|' =
      [e.timestamp, e.actorId, e.personId, e.action, e.roomId] ∧
    validateTimestamp e.timestamp = true ∧ validIdLike e.actorId = true ∧
    validatePersonId e.personId = true ∧ validateAction e.action = true ∧
    validateRoomId e.roomId = true := by
  unfold parseLogLine at h
  split at h
  · split_ifs at h with hv
    injection h with h
    subst h
    simp only [Bool.and_eq_true] at hv
    next heq => exact ⟨heq, hv.1.1.1.1, hv.1.1.1.2, hv.1.1.2, hv.1.2, hv.2⟩
  · exact Option.noConfusion h

theorem parseLogLine_eq_some_iff {line : List Char} {e : LogEntry} :
    parseLogLine line = some e ↔
      split (stripTrailing line) '|' =
        [e.timestamp, e.actorId, e.personId, e.action, e.roomId] ∧
      validateTimestamp e.timestamp = true ∧ validIdLike e.actorId = true ∧
      validatePersonId e.personId = true ∧ validateAction e.action = true ∧
      validateRoomId e.roomId = true := by
  constructor
  · exact parseLogLine_inv
  · rintro ⟨hs, h1, h2, h3, h4, h5⟩
    rcases e with ⟨ts, aid, pid, act, room⟩
    exact parseLogLine_of_fields hs h1 h2 h3 h4 h5

theorem formatLogEntry_eq_body (e : LogEntry) :
    formatLogEntry e =
      (e.timestamp ++ ('|' :: (e.actorId ++ ('|' :: (e.personId ++
        ('|' :: (e.action ++ ('|' :: e.roomId)))))))) ++ ['\n'] := by
  simp [formatLogEntry]

/-- C4: for every record whose five fields satisfy their field rules,
parsing the formatted line reproduces the record exactly:
`parseLogLine (formatLogEntry e) = some e`. -/
theorem format_parse_roundTrip (e : LogEntry)
    (h1 : validateTimestamp e.timestamp = true)
    (h2 : validIdLike e.actorId = true)
    (h3 : validatePersonId e.personId = true)
    (h4 : validateAction e.action = true)
    (h5 : validateRoomId e.roomId = true) :
    parseLogLine (formatLogEntry e) = some e := by
  have hts := validateTimestamp_chars h1
  have haid := validIdLike_chars h2
  have hpid := validIdLike_chars h3
  have hact := validateAction_chars h4
  have hroom := validateRoomId_chars h5
  have hbody :
      ∀ c ∈ e.timestamp ++ ('|' :: (e.actorId ++ ('|' :: (e.personId ++
        ('|' :: (e.action ++ ('|' :: e.roomId))))))),
        c ≠ '\n' ∧ c ≠ '\r' := by
    intro c hc
    rcases List.mem_append.mp hc with hm | hm
    · exact ⟨(hts c hm).2.1, (hts c hm).2.2⟩
    rcases List.mem_cons.mp hm with rfl | hm
    · exact ⟨by decide, by decide⟩
    rcases List.mem_append.mp hm with hm | hm
    · exact ⟨(haid c hm).2.1, (haid c hm).2.2⟩
    rcases List.mem_cons.mp hm with rfl | hm
    · exact ⟨by decide, by decide⟩
    rcases List.mem_append.mp hm with hm | hm
    · exact ⟨(hpid c hm).2.1, (hpid c hm).2.2⟩
    rcases List.mem_cons.mp hm with rfl | hm
    · exact ⟨by decide, by decide⟩
    rcases List.mem_append.mp hm with hm | hm
    · exact ⟨(hact c hm).2.1, (hact c hm).2.2⟩
    rcases List.mem_cons.mp hm with rfl | hm
    · exact ⟨by decide, by decide⟩
    exact ⟨(hroom c hm).2.1, (hroom c hm).2.2⟩
  have hstrip :
      stripTrailing (formatLogEntry e) =
        e.timestamp ++ ('|' :: (e.actorId ++ ('|' :: (e.personId ++
        ('|' :: (e.action ++ ('|' :: e.roomId))))))) := by
    rw [formatLogEntry_eq_body]
    exact stripTrailing_body_newline hbody
  have hsplit :
      split (e.timestamp ++ ('|' :: (e.actorId ++ ('|' :: (e.personId ++
        ('|' :: (e.action ++ ('|' :: e.roomId)))))))) '|' =
        [e.timestamp, e.actorId, e.personId, e.action, e.roomId] := by
    rw [split_append_delim _ (fun hm => (hts '|' hm).1 rfl),
      split_append_delim _ (fun hm => (haid '|' hm).1 rfl),
      split_append_delim _ (fun hm => (hpid '|' hm).1 rfl),
      split_append_delim _ (fun hm => (hact '|' hm).1 rfl),
      split_no_delim (fun hm => (hroom '|' hm).1 rfl)]
  exact parseLogLine_of_fields (by rw [hstrip]; exact hsplit) h1 h2 h3 h4 h5

/-- Witness for C4 at a concrete record. -/
theorem format_parse_roundTrip_witness :
    parseLogLine (formatLogEntry ⟨("12345".data), ("guard_alex".data),
        ("emp001".data), ("ENTER".data), ("lobby".data)⟩) =
      some ⟨("12345".data), ("guard_alex".data), ("emp001".data),
        ("ENTER".data), ("lobby".data)⟩ :=
  format_parse_roundTrip _ (by decide) (by decide) (by decide) (by decide)
    (by decide)

/-- C5: a line is rejected by the parser exactly when stripping the
trailing newline characters and splitting on the delimiter does not
produce 5 parts each satisfying its field rule, and a rejected line is
skipped by replay and omitted from the read output (which is a
`filterMap` over the parsed lines). -/
theorem parse_reject_iff (line : List Char) (st : List Char → PersonState)
    (pre post : List (List Char)) :
    (parseLogLine line = none ↔
      ¬ ∃ ts aid pid act room : List Char,
        split (stripTrailing line) '|' = [ts, aid, pid, act, room] ∧
        validateTimestamp ts = true ∧ validIdLike aid = true ∧
        validatePersonId pid = true ∧ validateAction act = true ∧
        validateRoomId room = true) ∧
    (parseLogLine line = none →
      replayStep st line = st ∧
      (pre ++ line :: post).filterMap parseLogLine =
        pre.filterMap parseLogLine ++ post.filterMap parseLogLine) := by
  constructor
  · constructor
    · intro h
      rintro ⟨ts, aid, pid, act, room, hs, h1, h2, h3, h4, h5⟩
      rw [parseLogLine_of_fields hs h1 h2 h3 h4 h5] at h
      exact Option.noConfusion h
    · intro hne
      rcases hp : parseLogLine line with _ | e
      · rfl
      · have hinv := parseLogLine_inv hp
        exact absurd ⟨e.timestamp, e.actorId, e.personId, e.action, e.roomId,
          hinv.1, hinv.2.1, hinv.2.2.1, hinv.2.2.2.1, hinv.2.2.2.2.1,
          hinv.2.2.2.2.2⟩ hne
  · intro h
    constructor
    · unfold replayStep
      rw [h]
    · simp [List.filterMap_append, List.filterMap_cons, h]

/-- Witness for C5: a malformed line in the middle of a file
contributes nothing to the read output. -/
theorem parse_reject_iff_witness :
    ([("1|g|p|ENTER|lobby".data)] ++ ("ab|cd".data) ::
        [("2|g|p|EXIT|-".data)]).filterMap parseLogLine =
      [("1|g|p|ENTER|lobby".data)].filterMap parseLogLine ++
        [("2|g|p|EXIT|-".data)].filterMap parseLogLine :=
  ((parse_reject_iff ("ab|cd".data) (fun _ => initialPersonState)
    [("1|g|p|ENTER|lobby".data)] [("2|g|p|EXIT|-".data)]).2 (by rfl)).2

/-! ### The transition table -/

/-- C2: the accept/reject decision of the transition validator matches
the state-machine table for every prior state (outside, or inside room
`r0`) and requested room `r`, and each rejection carries its specific
reason: already inside, not inside, same room, concrete room required,
room mismatch. -/
theorem transition_table_exact (r0 r : List Char) :
    (validateTransition false [] ("ENTER".data) r = Except.ok () ↔
      r ≠ ("-".data)) ∧
    (r = ("-".data) →
      validateTransition false [] ("ENTER".data) r =
        Except.error ValErr.concreteRoomRequired) ∧
    (validateTransition true r0 ("ENTER".data) r =
      Except.error ValErr.alreadyInside) ∧
    (validateTransition false [] ("MOVE".data) r =
      Except.error ValErr.notInside) ∧
    (validateTransition false [] ("EXIT".data) r =
      Except.error ValErr.notInside) ∧
    (validateTransition true r0 ("MOVE".data) r = Except.ok () ↔
      (r ≠ ("-".data) ∧ r ≠ r0)) ∧
    (r = r0 →
      validateTransition true r0 ("MOVE".data) r =
        Except.error ValErr.sameRoom) ∧
    (r ≠ r0 → r = ("-".data) →
      validateTransition true r0 ("MOVE".data) r =
        Except.error ValErr.concreteRoomRequired) ∧
    (validateTransition true r0 ("EXIT".data) r = Except.ok () ↔
      (r = ("-".data) ∨ r = r0)) ∧
    (r ≠ ("-".data) → r ≠ r0 →
      validateTransition true r0 ("EXIT".data) r =
        Except.error ValErr.roomMismatch) := by
  have e1 : ((("ENTER".data) : List Char) == ("ENTER".data)) = true := by decide
  have e2 : ((("MOVE".data) : List Char) == ("ENTER".data)) = false := by decide
  have e3 : ((("EXIT".data) : List Char) == ("ENTER".data)) = false := by decide
  have e4 : ((("MOVE".data) : List Char) == ("MOVE".data)) = true := by decide
  have e5 : ((("EXIT".data) : List Char) == ("MOVE".data)) = false := by decide
  have e6 : ((("EXIT".data) : List Char) == ("EXIT".data)) = true := by decide
  refine ⟨?_, ?_, ?_, ?_, ?_, ?_, ?_, ?_, ?_, ?_⟩ <;>
    simp only [validateTransition, e1, e2, e3, e4, e5, e6, Bool.false_eq_true,
      Bool.not_true, Bool.not_false, if_true, if_false] <;>
    split_ifs <;>
    simp_all [beq_iff_eq] <;>
    tauto

/-- Witness for C2 at concrete rooms: moving to the room one is already
in is rejected as "same room", and entering a concrete room from
outside is accepted. -/
theorem transition_table_exact_witness :
    validateTransition true ("lobby".data) ("MOVE".data) ("lobby".data) =
      Except.error ValErr.sameRoom ∧
    validateTransition false [] ("ENTER".data) ("lobby".data) =
      Except.ok () :=
  ⟨(transition_table_exact ("lobby".data) ("lobby".data)).2.2.2.2.2.2.1 rfl,
   (transition_table_exact [] ("lobby".data)).1.mpr (by decide)⟩

/-! ### The "-" sentinel -/

/-- C6 counterexample: the log parser DOES accept a record whose action
is ENTER and whose roomId is the sentinel "-" (it applies no
cross-field validation), so the claim that such a record is never
accepted by the parser is false. -/
theorem parser_accepts_enter_dash_counterexample :
    parseLogLine ("1|a|p|ENTER|-".data) =
      some ⟨("1".data), ("a".data), ("p".data), ("ENTER".data), ("-".data)⟩ := by
  rfl

/-- For any prior state, the transition validator rejects an ENTER or
MOVE event whose room is the sentinel "-". -/
theorem validateTransition_dash_enter_move (ci : Bool) (cr event : List Char)
    (hev : event = ("ENTER".data) ∨ event = ("MOVE".data)) :
    ∃ err, validateTransition ci cr event ("-".data) = Except.error err := by
  rcases hev with rfl | rfl
  · cases ci
    · exact ⟨ValErr.concreteRoomRequired, rfl⟩
    · exact ⟨ValErr.alreadyInside, rfl⟩
  · cases ci
    · exact ⟨ValErr.notInside, rfl⟩
    · cases hc : ((("-".data) : List Char) == cr)
      · refine ⟨ValErr.concreteRoomRequired, ?_⟩
        show (if ((("-".data) : List Char) == cr) = true then
            Except.error ValErr.sameRoom
          else if ((("-".data) : List Char) == ("-".data)) = true then
            Except.error ValErr.concreteRoomRequired
          else Except.ok ()) = Except.error ValErr.concreteRoomRequired
        rw [hc]
        simp
      · refine ⟨ValErr.sameRoom, ?_⟩
        show (if ((("-".data) : List Char) == cr) = true then
            Except.error ValErr.sameRoom
          else if ((("-".data) : List Char) == ("-".data)) = true then
            Except.error ValErr.concreteRoomRequired
          else Except.ok ()) = Except.error ValErr.sameRoom
        rw [hc]
        simp

/-- C6 amended: the append path never accepts an ENTER or MOVE event
with roomId "-" (the run never succeeds and the log content is
unchanged); the parser, by contrast, accepts such lines. -/
theorem append_rejects_dash_for_enter_move
    (hashFn : List Char → List Char) (store : List UserTokenInfo)
    (now : List Char) (fs : FsState) (token event personId : List Char)
    (hev : event = ("ENTER".data) ∨ event = ("MOVE".data)) :
    (logappendRun hashFn store now fs token event personId ("-".data)).1 ≠
      AppendOutcome.success ∧
    contentOf
        (logappendRun hashFn store now fs token event personId ("-".data)).2 =
      contentOf fs := by
  unfold logappendRun
  split_ifs with h1 h2 h3 h4
  · exact ⟨by simp, rfl⟩
  · exact ⟨by simp, rfl⟩
  · exact ⟨by simp, rfl⟩
  · exact ⟨by simp, rfl⟩
  · rcases hauth : authenticateToken hashFn token Operation.Append store with
        _ | user
    · simp only [hauth]
      exact ⟨by simp, by simp⟩
    · simp only [hauth]
      rcases validateTransition_dash_enter_move
          ((replayLines (fileLines (contentOf fs)) personId).inside)
          (if (replayLines (fileLines (contentOf fs)) personId).inside then
            (replayLines (fileLines (contentOf fs)) personId).room
          else []) event hev with ⟨err, herr⟩
      simp only [herr]
      exact ⟨by simp, by simp [contentOf]⟩

/-- Witness for C6's amended theorem at concrete inputs. -/
theorem append_rejects_dash_witness :
    (logappendRun id
        [⟨("guard_alex".data), Permission.AppendOnly, ("tok".data)⟩]
        ("5".data) (some []) ("tok".data) ("ENTER".data) ("p1".data)
        ("-".data)).1 ≠ AppendOutcome.success :=
  (append_rejects_dash_for_enter_move id
    [⟨("guard_alex".data), Permission.AppendOnly, ("tok".data)⟩]
    ("5".data) (some []) ("tok".data) ("ENTER".data) ("p1".data)
    (Or.inl rfl)).1

/-! ### Replay as the effect of the last record (C7) -/

/-- Spec-side description of one record's effect on the person it
mentions (§3/§4.3): ENTER and MOVE set `(inside=true, room=roomId)`,
EXIT sets `(inside=false, room="")`.  Stated from the spec's words, to
be compared with the source-derived `applyAction`. -/
def lastRecordEffect (e : LogEntry) : PersonState :=
  if e.action == ("EXIT".data) then ⟨false, []⟩ else ⟨true, e.roomId⟩

theorem applyAction_eq_effect {e : LogEntry}
    (h : validateAction e.action = true) (ps : PersonState) :
    applyAction ps e = lastRecordEffect e := by
  rcases validateAction_cases h with ha | ha | ha <;>
    simp [applyAction, lastRecordEffect, ha]

theorem foldl_applyEntry_last (pid : List Char) :
    ∀ (l : List LogEntry) (st : List Char → PersonState),
      (∀ e ∈ l, validateAction e.action = true) →
      l.foldl applyEntry st pid =
        match (l.filter (fun e => e.personId == pid)).getLast? with
        | none => st pid
        | some e => lastRecordEffect e := by
  intro l
  induction l using List.reverseRecOn with
  | nil => intro st h; rfl
  | append_singleton l e ih =>
    intro st h
    have hl : ∀ x ∈ l, validateAction x.action = true :=
      fun x hx => h x (List.mem_append.mpr (Or.inl hx))
    have he : validateAction e.action = true :=
      h e (List.mem_append.mpr (Or.inr (List.mem_singleton_self e)))
    rw [List.foldl_append, List.foldl_cons, List.foldl_nil,
      List.filter_append]
    cases hp : (pid == e.personId) with
    | false =>
      have hne : (e.personId == pid) = false := by
        simp only [beq_eq_false_iff_ne, ne_eq] at hp ⊢
        exact fun hq => hp hq.symm
      simp only [applyEntry, hp, Bool.false_eq_true, if_false]
      rw [List.filter_singleton, hne, Bool.cond_false, List.append_nil]
      exact ih st hl
    | true =>
      have heq : (e.personId == pid) = true := by
        simp only [beq_iff_eq] at hp ⊢
        exact hp.symm
      simp only [applyEntry, hp, if_true]
      rw [List.filter_singleton, heq, Bool.cond_true, List.getLast?_concat]
      exact applyAction_eq_effect he _

/-- C7: replay is a pure left fold over the records in file order; a
person never mentioned ends outside with an empty room, and otherwise a
person's final state is exactly the effect of the last record
mentioning them (ENTER/MOVE set inside with that room, EXIT clears). -/
theorem replay_last_record_effect (entries : List LogEntry)
    (pid : List Char)
    (h : ∀ e ∈ entries, validateAction e.action = true) :
    (entries.filter (fun e => e.personId == pid) = [] →
      replayEntries entries pid = ⟨false, []⟩) ∧
    (∀ e, (entries.filter (fun e => e.personId == pid)).getLast? = some e →
      replayEntries entries pid = lastRecordEffect e) := by
  have hfold := foldl_applyEntry_last pid entries
    (fun _ => initialPersonState) h
  constructor
  · intro hnil
    rw [replayEntries, hfold, hnil]
    rfl
  · intro e hlast
    rw [replayEntries, hfold, hlast]

/-- Witness for C7 at a concrete record sequence. -/
theorem replay_last_record_effect_witness :
    replayEntries
        [⟨("1".data), ("g".data), ("p".data), ("ENTER".data), ("lobby".data)⟩,
         ⟨("2".data), ("g".data), ("p".data), ("MOVE".data), ("vault".data)⟩]
        ("p".data) =
      lastRecordEffect
        ⟨("2".data), ("g".data), ("p".data), ("MOVE".data), ("vault".data)⟩ :=
  (replay_last_record_effect
      [⟨("1".data), ("g".data), ("p".data), ("ENTER".data), ("lobby".data)⟩,
       ⟨("2".data), ("g".data), ("p".data), ("MOVE".data), ("vault".data)⟩]
      ("p".data) (by decide)).2
    ⟨("2".data), ("g".data), ("p".data), ("MOVE".data), ("vault".data)⟩
    (by decide)

/-! ### The replay state invariant (C10) -/

/-- The occupancy-state invariant: an outside person has an empty room,
and an inside person's room passed `validateRoomId` (one of the six
whitelisted rooms or the sentinel "-"). -/
def stateInv (st : List Char → PersonState) : Prop :=
  ∀ pid, ((st pid).inside = false → (st pid).room = []) ∧
    ((st pid).inside = true → validateRoomId (st pid).room = true)

theorem stateInv_initial : stateInv (fun _ => initialPersonState) :=
  fun _ => ⟨fun _ => rfl, fun h => Bool.noConfusion h⟩

theorem applyAction_inv {e : LogEntry}
    (hroom : validateRoomId e.roomId = true) (ps : PersonState)
    (hps : (ps.inside = false → ps.room = []) ∧
      (ps.inside = true → validateRoomId ps.room = true)) :
    ((applyAction ps e).inside = false → (applyAction ps e).room = []) ∧
    ((applyAction ps e).inside = true →
      validateRoomId (applyAction ps e).room = true) := by
  cases h1 : (e.action == ("ENTER".data)) with
  | true =>
    simp [applyAction, h1, hroom]
  | false =>
    cases h2 : (e.action == ("MOVE".data)) with
    | true =>
      simp [applyAction, h1, h2, hroom]
    | false =>
      cases h3 : (e.action == ("EXIT".data)) with
      | true =>
        simp [applyAction, h1, h2, h3]
      | false =>
        simp only [applyAction, h1, h2, h3, Bool.false_eq_true, if_false]
        exact hps

theorem replayStep_inv {st : List Char → PersonState} (hst : stateInv st)
    (line : List Char) : stateInv (replayStep st line) := by
  unfold replayStep
  rcases hp : parseLogLine line with _ | e
  · exact hst
  · intro pid
    have hroom := (parseLogLine_inv hp).2.2.2.2.2
    cases hq : (pid == e.personId) with
    | false =>
      simp only [applyEntry, hq, Bool.false_eq_true, if_false]
      exact hst pid
    | true =>
      simp only [applyEntry, hq, if_true]
      exact applyAction_inv hroom (st e.personId) (hst e.personId)

theorem replayLines_inv (lines : List (List Char)) :
    stateInv (replayLines lines) := by
  suffices hgen : ∀ (ls : List (List Char)) (st : List Char → PersonState),
      stateInv st → stateInv (ls.foldl replayStep st) by
    exact hgen lines (fun _ => initialPersonState) stateInv_initial
  intro ls
  induction ls with
  | nil => exact fun st h => h
  | cons line ls ih =>
    intro st h
    exact ih (replayStep st line) (replayStep_inv h line)

/-- C10: after replaying any sequence of lines (in particular lines
each accepted by the parser), every person's state satisfies: outside
implies empty room, and inside implies the room passed the room
whitelist check (six rooms or the sentinel "-").  The room field is
never an arbitrary unvalidated string. -/
theorem replay_state_invariant (lines : List (List Char))
    (pid : List Char) :
    ((replayLines lines pid).inside = false →
      (replayLines lines pid).room = []) ∧
    ((replayLines lines pid).inside = true →
      validateRoomId (replayLines lines pid).room = true) :=
  replayLines_inv lines pid

/-- Witness for C10: a parseable ENTER line carrying roomId "-" yields
a state inside the room named "-", which passes the whitelist check;
and the empty log leaves a person outside with an empty room. -/
theorem replay_state_invariant_witness :
    validateRoomId
        (replayLines [("1|a|p|ENTER|-".data)] ("p".data)).room = true ∧
    (replayLines [] ("q".data)).room = [] :=
  ⟨(replay_state_invariant [("1|a|p|ENTER|-".data)] ("p".data)).2 (by decide),
   (replay_state_invariant [] ("q".data)).1 (by decide)⟩

/-! ### Authentication indistinguishability (C8) -/

/-- C8: a presented secret matching no stored credential hash and a
presented secret matching a credential whose permission does not allow
the requested operation produce the identical failure result: the same
`none`, carrying no information about which cause occurred. -/
theorem auth_failure_indistinguishable
    (hashFn : List Char → List Char) (op : Operation)
    (s1 s2 : List Char) (pre post : List UserTokenInfo) (u : UserTokenInfo)
    (h1 : ∀ v ∈ pre ++ u :: post, hashFn s1 ≠ v.tokenHash)
    (h2ne : s2.isEmpty = false)
    (h2pre : ∀ v ∈ pre, hashFn s2 ≠ v.tokenHash)
    (h2u : hashFn s2 = u.tokenHash)
    (h2perm : permissionAllows u.permission op = false) :
    authenticateToken hashFn s1 op (pre ++ u :: post) = none ∧
    authenticateToken hashFn s2 op (pre ++ u :: post) =
      authenticateToken hashFn s1 op (pre ++ u :: post) := by
  have hs1 : authenticateToken hashFn s1 op (pre ++ u :: post) = none := by
    unfold authenticateToken
    cases he : s1.isEmpty with
    | true => simp only [he, if_true]
    | false =>
      simp only [he, Bool.false_eq_true, if_false]
      exact scanStore_none
        (fun v hv => constantTimeEquals_eq_false_of_ne (h1 v hv))
  refine ⟨hs1, ?_⟩
  rw [hs1]
  unfold authenticateToken
  simp only [h2ne, Bool.false_eq_true, if_false]
  rw [scanStore_skip
    (fun v hv => constantTimeEquals_eq_false_of_ne (h2pre v hv))]
  have hctu : constantTimeEquals (hashFn s2) u.tokenHash = true :=
    constantTimeEquals_iff.mpr h2u
  simp only [scanStore, hctu, if_true, h2perm, Bool.false_eq_true, if_false]

/-- A small concrete credential store used by the witnesses (the hash
function is instantiated as the identity there). -/
def demoStore : List UserTokenInfo :=
  [⟨("guard_alex".data), Permission.AppendOnly, ("tok".data)⟩,
   ⟨("manager_kim".data), Permission.ReadOnly, ("rtok".data)⟩]

/-- Witness for C8: a wrong secret and the read-only user's correct
secret both fail identically for the Append operation. -/
theorem auth_failure_indistinguishable_witness :
    authenticateToken id ("zzz".data) Operation.Append
        ([⟨("guard_alex".data), Permission.AppendOnly, ("tok".data)⟩] ++
          ⟨("manager_kim".data), Permission.ReadOnly, ("rtok".data)⟩ :: []) =
      none ∧
    authenticateToken id ("rtok".data) Operation.Append
        ([⟨("guard_alex".data), Permission.AppendOnly, ("tok".data)⟩] ++
          ⟨("manager_kim".data), Permission.ReadOnly, ("rtok".data)⟩ :: []) =
      authenticateToken id ("zzz".data) Operation.Append
        ([⟨("guard_alex".data), Permission.AppendOnly, ("tok".data)⟩] ++
          ⟨("manager_kim".data), Permission.ReadOnly, ("rtok".data)⟩ :: []) :=
  auth_failure_indistinguishable id Operation.Append ("zzz".data)
    ("rtok".data) [⟨("guard_alex".data), Permission.AppendOnly, ("tok".data)⟩]
    [] ⟨("manager_kim".data), Permission.ReadOnly, ("rtok".data)⟩
    (by decide) (by decide) (by decide) (by decide) (by decide)

/-! ### Append executor: append iff valid (C1) -/

/-- C1: with syntactically valid arguments and successful Append
authentication, the new record is appended to the log exactly when the
transition validator accepts the event against the state replayed from
every preceding record; when the validator rejects, the run returns
that specific validation error and the log content is unchanged. -/
theorem append_iff_valid_transition
    (hashFn : List Char → List Char) (store : List UserTokenInfo)
    (now : List Char) (fs : FsState)
    (token event personId roomId : List Char) (user : UserTokenInfo)
    (htok : token.isEmpty = false) (hev : validateAction event = true)
    (hroom : validateRoomId roomId = true)
    (hpid : validatePersonId personId = true)
    (hauth : authenticateToken hashFn token Operation.Append store =
      some user) :
    (validateTransition
        ((replayLines (fileLines (contentOf fs)) personId).inside)
        (if (replayLines (fileLines (contentOf fs)) personId).inside then
          (replayLines (fileLines (contentOf fs)) personId).room
        else []) event roomId = Except.ok () →
      logappendRun hashFn store now fs token event personId roomId =
        (AppendOutcome.success,
          some (contentOf fs ++
            formatLogEntry ⟨now, user.actorId, personId, event, roomId⟩))) ∧
    (∀ err,
      validateTransition
          ((replayLines (fileLines (contentOf fs)) personId).inside)
          (if (replayLines (fileLines (contentOf fs)) personId).inside then
            (replayLines (fileLines (contentOf fs)) personId).room
          else []) event roomId = Except.error err →
      logappendRun hashFn store now fs token event personId roomId =
        (AppendOutcome.validationError err, some (contentOf fs))) := by
  have hevne : event.isEmpty = false := by
    rcases validateAction_cases hev with rfl | rfl | rfl <;> rfl
  have hroomne : roomId.isEmpty = false := by
    have hm := validateRoomId_cases hroom
    simp only [ROOMS, List.mem_cons, List.not_mem_nil, or_false] at hm
    rcases hm with rfl | rfl | rfl | rfl | rfl | rfl | rfl <;> rfl
  have hpidne : personId.isEmpty = false := by
    unfold validatePersonId validIdLike at hpid
    simp only [Bool.and_eq_true, Bool.not_eq_true'] at hpid
    exact hpid.1.1
  unfold logappendRun
  simp only [htok, hevne, hpidne, hroomne, Bool.or_self, Bool.false_eq_true,
    if_false, hev, hroom, hpid, Bool.not_true, hauth]
  constructor
  · intro hok
    simp only [hok]
  · intro err herr
    simp only [herr]

/-- Witness for C1 at concrete inputs: an ENTER into the lobby on an
empty filesystem succeeds and appends exactly the formatted record. -/
theorem append_iff_valid_transition_witness :
    logappendRun id demoStore ("5".data) none ("tok".data) ("ENTER".data)
        ("p1".data) ("lobby".data) =
      (AppendOutcome.success,
        some (contentOf none ++
          formatLogEntry ⟨("5".data), ("guard_alex".data), ("p1".data),
            ("ENTER".data), ("lobby".data)⟩)) :=
  (append_iff_valid_transition id demoStore ("5".data) none ("tok".data)
    ("ENTER".data) ("p1".data) ("lobby".data)
    ⟨("guard_alex".data), Permission.AppendOnly, ("tok".data)⟩
    (by decide) (by decide) (by decide) (by decide) (by rfl)).1 (by rfl)

/-! ### Filesystem frame of failed appends (C3) -/

/-- C3 counterexample: a §4.4 business-rule rejection (MOVE while not
inside) on a system with NO log file still creates the empty log file,
because `openFileAppend` runs with `O_CREAT` before the gallery rules
are checked.  The filesystem state is `none` before the invocation and
`some []` after it, so the claim that the filesystem state (including
existence of the log file) is identical is false. -/
theorem validation_error_frame_counterexample :
    logappendRun id demoStore ("5".data) none ("tok".data) ("MOVE".data)
        ("p1".data) ("lobby".data) =
      (AppendOutcome.validationError ValErr.notInside, some []) ∧
    (some ([] : List Char) : FsState) ≠ (none : FsState) :=
  ⟨by rfl, by simp⟩

/-- C3 amended: failures detected before the file is opened (missing
or malformed arguments, authentication failure) leave the filesystem
state exactly unchanged, and every non-success outcome leaves the log
CONTENT unchanged — but a business-rule rejection happens after the
`O_CREAT` open and may create an empty log file when none existed. -/
theorem validation_error_frame_amended
    (hashFn : List Char → List Char) (store : List UserTokenInfo)
    (now : List Char) (fs : FsState)
    (token event personId roomId : List Char) :
    (((logappendRun hashFn store now fs token event personId roomId).1 =
          AppendOutcome.usageMissing ∨
      (logappendRun hashFn store now fs token event personId roomId).1 =
          AppendOutcome.usageBadEvent ∨
      (logappendRun hashFn store now fs token event personId roomId).1 =
          AppendOutcome.usageBadRoom ∨
      (logappendRun hashFn store now fs token event personId roomId).1 =
          AppendOutcome.usageBadPerson ∨
      (logappendRun hashFn store now fs token event personId roomId).1 =
          AppendOutcome.authFailed) →
      (logappendRun hashFn store now fs token event personId roomId).2 =
        fs) ∧
    ((logappendRun hashFn store now fs token event personId roomId).1 ≠
        AppendOutcome.success →
      contentOf
          (logappendRun hashFn store now fs token event personId roomId).2 =
        contentOf fs) := by
  unfold logappendRun
  split_ifs with h1 h2 h3 h4
  · exact ⟨fun _ => rfl, fun _ => rfl⟩
  · exact ⟨fun _ => rfl, fun _ => rfl⟩
  · exact ⟨fun _ => rfl, fun _ => rfl⟩
  · exact ⟨fun _ => rfl, fun _ => rfl⟩
  · rcases hauth : authenticateToken hashFn token Operation.Append store with
        _ | user
    · simp [hauth]
    · simp only [hauth]
      rcases hvt : validateTransition
          ((replayLines (fileLines (contentOf fs)) personId).inside)
          (if (replayLines (fileLines (contentOf fs)) personId).inside then
            (replayLines (fileLines (contentOf fs)) personId).room
          else []) event roomId with err | u
      · simp only [hvt]
        refine ⟨fun h => ?_, fun _ => by simp [contentOf]⟩
        rcases h with h | h | h | h | h <;> exact absurd h (by simp)
      · simp only [hvt]
        refine ⟨fun h => ?_, fun h => absurd rfl h⟩
        rcases h with h | h | h | h | h <;> exact absurd h (by simp)

/-- Witness for C3's amended theorem: a malformed event name leaves the
filesystem state untouched. -/
theorem validation_error_frame_amended_witness :
    (logappendRun id demoStore ("5".data) (some ("abc".data)) ("tok".data)
        ("BAD".data) ("p1".data) ("lobby".data)).2 = some ("abc".data) :=
  (validation_error_frame_amended id demoStore ("5".data)
    (some ("abc".data)) ("tok".data) ("BAD".data) ("p1".data)
    ("lobby".data)).1 (Or.inr (Or.inl (by rfl)))

/-! ### Read executor (C9) -/

/-- C9: after successful Read authentication, a missing log file is a
successful empty result (not an error); an existing file yields exactly
the structurally valid records in file order, with malformed lines
omitted (a `filterMap` of the parser over the file's lines); and the
filesystem state is unchanged. -/
theorem read_executor_behavior
    (hashFn : List Char → List Char) (store : List UserTokenInfo)
    (fs : FsState) (token : List Char) (user : UserTokenInfo)
    (hauth : authenticateToken hashFn token Operation.Read store =
      some user) :
    (logreadRun hashFn store fs token).2 = fs ∧
    (fs = none →
      (logreadRun hashFn store fs token).1 = ReadOutcome.success []) ∧
    (∀ c, fs = some c →
      (logreadRun hashFn store fs token).1 =
        ReadOutcome.success ((fileLines c).filterMap parseLogLine)) := by
  unfold logreadRun
  simp only [hauth]
  rcases fs with _ | c
  · exact ⟨rfl, fun _ => rfl, fun c hc => Option.noConfusion hc⟩
  · refine ⟨rfl, fun h => Option.noConfusion h, fun c2 hc => ?_⟩
    injection hc with hc
    subst hc
    rfl

/-- Witness for C9: the read-only user reading a one-good-one-bad-line
file gets exactly the parseable record; reading a missing file gets the
empty result. -/
theorem read_executor_behavior_witness :
    (logreadRun id demoStore (some ("1|g|p|ENTER|lobby\nbad\n".data))
        ("rtok".data)).1 =
      ReadOutcome.success
        ((fileLines ("1|g|p|ENTER|lobby\nbad\n".data)).filterMap
          parseLogLine) ∧
    (logreadRun id demoStore none ("rtok".data)).1 =
      ReadOutcome.success [] :=
  ⟨((read_executor_behavior id demoStore
      (some ("1|g|p|ENTER|lobby\nbad\n".data)) ("rtok".data)
      ⟨("manager_kim".data), Permission.ReadOnly, ("rtok".data)⟩
      (by rfl)).2.2 ("1|g|p|ENTER|lobby\nbad\n".data) rfl),
   ((read_executor_behavior id demoStore none ("rtok".data)
      ⟨("manager_kim".data), Permission.ReadOnly, ("rtok".data)⟩
      (by rfl)).2.1 rfl)⟩

end GalleryLog
